import Mathlib

/-!
Verification of `pdf2zh/high_level.py` (PDFMathTranslate).

Shallow embedding of the functions `get_system_fonts`, `get_fallback_font`,
`check_files`, `translate_patch`, `translate_stream` and `translate`.
Machine data (the per-page layout mask, documents as page lists, PDF objects
as font-resource records) is modelled with Lean lists and functions; the
numpy mask assignment `box[y0:y1, x0:x1] = v` is modelled by `paint`, which
updates exactly the half-open index ranges that the slice covers.
-/

namespace PDF2ZH

/-! ### Layout mask builder (`translate_patch`, lines 204-227)

A detection box carries a class name and the `xyxy` pixel coordinates as
produced by `d.xyxy.squeeze()`.  The Python code applies `int(...)` to the
(float) coordinates after the ±1 expansion; we take the coordinates as
integers, so `int` is the identity. -/

structure DetBox where
  cls : String
  x0 : Int
  y0 : Int
  x1 : Int
  y1 : Int
deriving DecidableEq, Repr

/-- `np.clip(v, lo, hi) = max(lo, min(v, hi))`. -/
def npclip (v lo hi : Int) : Int := max lo (min v hi)

/-- The preserve-class list `vcls` of `translate_patch`. -/
def vcls : List String := ["abandon", "figure", "table", "isolate_formula", "formula_caption"]

/-- A clamped rectangle in mask coordinates: the numpy slice
`box[y0:y1, x0:x1]` touches rows `y0 ≤ r < y1` and columns `x0 ≤ c < x1`. -/
structure Rect where
  x0 : Nat
  y0 : Nat
  x1 : Nat
  y1 : Nat
deriving DecidableEq, Repr

/-- The clamped, 1-pixel-expanded, vertically flipped rectangle computed for a
detection box by `translate_patch`:
`np.clip(int(x0-1),0,w-1), np.clip(int(h-y1-1),0,h-1), np.clip(int(x1+1),0,w-1), np.clip(int(h-y0+1),0,h-1)`. -/
def clampBox (h w : Nat) (d : DetBox) : Rect :=
  { x0 := (npclip (d.x0 - 1) 0 ((w : Int) - 1)).toNat
    y0 := (npclip ((h : Int) - d.y1 - 1) 0 ((h : Int) - 1)).toNat
    x1 := (npclip (d.x1 + 1) 0 ((w : Int) - 1)).toNat
    y1 := (npclip ((h : Int) - d.y0 + 1) 0 ((h : Int) - 1)).toNat }

/-- A mask is a function from (row, column) to the stored value. -/
def Mask : Type := Nat → Nat → Nat

/-- `box[r.y0:r.y1, r.x0:r.x1] = v`: paint the half-open rectangle. -/
def paint (m : Mask) (r : Rect) (v : Nat) : Mask :=
  fun row col =>
    if r.y0 ≤ row ∧ row < r.y1 ∧ r.x0 ≤ col ∧ col < r.x1 then v else m row col

/-- Membership of a cell in the half-open region covered by the numpy slice
of a clamped rectangle. -/
def inRect (r : Rect) (row col : Nat) : Prop :=
  r.y0 ≤ row ∧ row < r.y1 ∧ r.x0 ≤ col ∧ col < r.x1

instance (r : Rect) (row col : Nat) : Decidable (inRect r row col) := by
  unfold inRect; infer_instance

/-- First loop of the mask builder: every box whose class is NOT in `vcls`
paints its clamped rectangle with `i + 2`, `i` its index in the box list. -/
def paintTranslatable (h w : Nat) (boxes : List (Nat × DetBox)) (m : Mask) : Mask :=
  boxes.foldl
    (fun acc p =>
      if p.2.cls ∈ vcls then acc else paint acc (clampBox h w p.2) (p.1 + 2))
    m

/-- Second loop of the mask builder: every box whose class IS in `vcls`
paints its clamped rectangle with `0`. -/
def paintPreserve (h w : Nat) (boxes : List (Nat × DetBox)) (m : Mask) : Mask :=
  boxes.foldl
    (fun acc p =>
      if p.2.cls ∈ vcls then paint acc (clampBox h w p.2) 0 else acc)
    m

/-- The layout mask built per page by `translate_patch`:
`box = np.ones((h, w))`, then the translatable loop, then the preserve loop. -/
def buildMask (h w : Nat) (boxes : List DetBox) : Mask :=
  paintPreserve h w boxes.enum (paintTranslatable h w boxes.enum (fun _ _ => 1))

lemma paint_self (m : Mask) (r : Rect) (v : Nat) (row col : Nat)
    (h : inRect r row col) : paint m r v row col = v := by
  unfold paint
  exact if_pos h

lemma paint_value (m : Mask) (r : Rect) (v : Nat) (row col : Nat) :
    paint m r v row col = v ∨ paint m r v row col = m row col := by
  unfold paint
  by_cases h : r.y0 ≤ row ∧ row < r.y1 ∧ r.x0 ≤ col ∧ col < r.x1
  · left; simp [h]
  · right; simp [h]

/-- Once a cell is `0`, the preserve loop keeps it `0` (it only ever paints `0`). -/
lemma paintPreserve_zero (h w : Nat) (boxes : List (Nat × DetBox)) (m : Mask)
    (row col : Nat) (hz : m row col = 0) :
    paintPreserve h w boxes m row col = 0 := by
  induction boxes generalizing m with
  | nil => simpa [paintPreserve]
  | cons b bs ih =>
      simp only [paintPreserve, List.foldl_cons]
      by_cases hcls : b.2.cls ∈ vcls
      · simp only [hcls, if_pos]
        apply ih
        rcases paint_value m (clampBox h w b.2) 0 row col with h0 | h0
        · exact h0
        · rw [h0]; exact hz
      · simp only [hcls, if_neg, not_false_iff]
        exact ih m hz

/-- If the cell lies in the painted rectangle of some preserve-class box of the
list, the preserve loop leaves it at `0`. -/
lemma paintPreserve_covered (h w : Nat) (boxes : List (Nat × DetBox)) (m : Mask)
    (row col : Nat) (i : Nat) (d : DetBox)
    (hmem : (i, d) ∈ boxes) (hcls : d.cls ∈ vcls)
    (hin : inRect (clampBox h w d) row col) :
    paintPreserve h w boxes m row col = 0 := by
  induction boxes generalizing m with
  | nil => cases hmem
  | cons b bs ih =>
      rcases List.mem_cons.mp hmem with hb | hb
      · subst hb
        simp only [paintPreserve, List.foldl_cons, hcls, if_pos]
        exact paintPreserve_zero h w bs _ row col (paint_self m _ 0 row col hin)
      · simp only [paintPreserve, List.foldl_cons]
        by_cases hc : b.2.cls ∈ vcls
        · simp only [hc, if_pos]; exact ih _ hb
        · simp only [hc, if_neg, not_false_iff]; exact ih _ hb

/-- C1: in the layout mask built per page by `translate_patch`, every cell in
the clamped, 1-pixel-expanded rectangle (the region the numpy slice paints) of
a detection box whose class is in the preserve set
{abandon, figure, table, isolate_formula, formula_caption} holds `0` in the
final mask, regardless of any overlapping translatable box, because the
preserve loop runs after the translatable loop. -/
theorem c1_preserve_cells_zero (h w : Nat) (boxes : List DetBox) (i : Nat)
    (d : DetBox) (hmem : (i, d) ∈ boxes.enum) (hcls : d.cls ∈ vcls)
    (row col : Nat) (hin : inRect (clampBox h w d) row col) :
    buildMask h w boxes row col = 0 := by
  unfold buildMask
  exact paintPreserve_covered h w boxes.enum _ row col i d hmem hcls hin

theorem c1_preserve_cells_zero_witness :
    buildMask 12 12 [⟨"plain text", 0, 0, 10, 10⟩, ⟨"figure", 2, 2, 8, 8⟩] 5 5 = 0 :=
  c1_preserve_cells_zero 12 12 [⟨"plain text", 0, 0, 10, 10⟩, ⟨"figure", 2, 2, 8, 8⟩]
    1 ⟨"figure", 2, 2, 8, 8⟩ (by decide) (by decide) 5 5 (by decide)

/-- C5 counterexample: a translatable box at image coordinates `(0,0,3,4)` on a
`4 × 3` page (touching the image top, `y0 = 0`, `y1 = h = 4`).  No cell of the
last mask row `h - 1 = 3` holds the box's index `0 + 2 = 2`: the clamp of
`h - y0 + 1 = 5` to `h - 1 = 3` together with the exclusive numpy slice end
leaves row `3` at the default value `1`, while row `h - 2 = 2` is painted. -/
theorem c5_top_box_bottom_row_cex :
    buildMask 4 3 [⟨"plain text", 0, 0, 3, 4⟩] 3 0 = 1 ∧
    buildMask 4 3 [⟨"plain text", 0, 0, 3, 4⟩] 3 1 = 1 ∧
    buildMask 4 3 [⟨"plain text", 0, 0, 3, 4⟩] 3 2 = 1 ∧
    buildMask 4 3 [⟨"plain text", 0, 0, 3, 4⟩] 2 0 = 2 := by
  refine ⟨?_, ?_, ?_, ?_⟩ <;> decide

/-- C5 amended: a translatable box at image coordinates `(x0, 0, x1, h)` on a
page of pixel height `h ≥ 2` is painted on the mask rows `0 ≤ r < h - 1`: the
vertical flip maps the image top edge to the clamped exclusive row bound
`h - 1`, so the bottom-most painted row is `h - 2` and the final row `h - 1`
itself keeps the default value `1` (the clamp to `h - 1` combined with the
exclusive slice end excludes it). -/
theorem c5_top_box_maps_to_bottom_rows (h w : Nat) (d : DetBox)
    (hcls : d.cls ∉ vcls) (hy0 : d.y0 = 0) (hy1 : d.y1 = (h : Int))
    (hh : 2 ≤ h) (col : Nat)
    (hc0 : (clampBox h w d).x0 ≤ col) (hc1 : col < (clampBox h w d).x1) :
    (clampBox h w d).y0 = 0 ∧ (clampBox h w d).y1 = h - 1 ∧
    buildMask h w [d] (h - 2) col = 2 ∧
    buildMask h w [d] (h - 1) col = 1 := by
  have hy0c : (clampBox h w d).y0 = 0 := by
    simp only [clampBox, npclip, hy1]
    omega
  have hy1c : (clampBox h w d).y1 = h - 1 := by
    simp only [clampBox, npclip, hy0]
    omega
  refine ⟨hy0c, hy1c, ?_, ?_⟩
  · have hin : inRect (clampBox h w d) (h - 2) col := by
      refine ⟨?_, ?_, hc0, hc1⟩
      · omega
      · omega
    simp only [buildMask, List.enum, List.enumFrom, paintPreserve,
      paintTranslatable, List.foldl_cons, List.foldl_nil, hcls, if_pos,
      if_neg, not_false_iff]
    exact paint_self _ _ 2 _ _ hin
  · have hout : ¬ inRect (clampBox h w d) (h - 1) col := by
      intro hin
      have := hin.2.1
      omega
    simp only [buildMask, List.enum, List.enumFrom, paintPreserve,
      paintTranslatable, List.foldl_cons, List.foldl_nil, hcls, if_pos,
      if_neg, not_false_iff]
    unfold paint
    rw [if_neg (by exact hout)]

theorem c5_top_box_maps_to_bottom_rows_witness :
    (clampBox 4 3 ⟨"plain text", 0, 0, 3, 4⟩).y0 = 0 ∧
    (clampBox 4 3 ⟨"plain text", 0, 0, 3, 4⟩).y1 = 3 ∧
    buildMask 4 3 [⟨"plain text", 0, 0, 3, 4⟩] 2 0 = 2 ∧
    buildMask 4 3 [⟨"plain text", 0, 0, 3, 4⟩] 3 0 = 1 :=
  c5_top_box_maps_to_bottom_rows 4 3 ⟨"plain text", 0, 0, 3, 4⟩
    (by decide) (by decide) (by decide) (by decide) 0 (by decide) (by decide)

/-! ### Page sweep of `translate_patch` (lines 189-232)

The loop `for pageno, page in enumerate(PDFPage.create_pages(doc))` visits
page numbers `0, 1, …, n-1`.  Per page, in source order:
cancellation check (`raise CancelledError`), page filter
(`if pages and (pageno not in pages): continue` — Python truthiness: an empty
list disables the filter), `progress.update()`, `callback(progress)` if a
callback is given, then page processing.  The cancellation event is modelled
as the predicate `cancelled pageno`: whether the event is set when the sweep
reaches page `pageno`. -/

structure SweepState where
  progress : Nat
  callbacks : Nat
  processed : List Nat
deriving DecidableEq, Repr

def initSweepState : SweepState := ⟨0, 0, []⟩

/-- Whether page `pageno` passes the filter: `pages and (pageno not in pages)`
skips the page, so the page is processed iff the filter list is empty (falsy)
or contains `pageno`. -/
def pagePasses (pages : List Nat) (pageno : Nat) : Bool :=
  pages.isEmpty || pages.contains pageno

/-- Body of one non-cancelled loop iteration. -/
def pageStep (pages : List Nat) (hasCallback : Bool) (s : SweepState)
    (pageno : Nat) : SweepState :=
  if pagePasses pages pageno then
    { progress := s.progress + 1
      callbacks := if hasCallback then s.callbacks + 1 else s.callbacks
      processed := s.processed ++ [pageno] }
  else s

/-- The sweep from page `pageno`, with `fuel` pages left; `.error` carries the
state at the moment `CancelledError` is raised. -/
def sweepFrom (pages : List Nat) (hasCallback : Bool) (cancelled : Nat → Bool) :
    Nat → Nat → SweepState → Except SweepState SweepState
  | _, 0, s => .ok s
  | pageno, fuel + 1, s =>
      if cancelled pageno then .error s
      else sweepFrom pages hasCallback cancelled (pageno + 1) fuel
        (pageStep pages hasCallback s pageno)

/-- The page sweep of `translate_patch` over an `n`-page document. -/
def sweep (n : Nat) (pages : List Nat) (hasCallback : Bool)
    (cancelled : Nat → Bool) : Except SweepState SweepState :=
  sweepFrom pages hasCallback cancelled 0 n initSweepState

def progressOf : Except SweepState SweepState → Nat
  | .ok s => s.progress
  | .error s => s.progress

def callbacksOf : Except SweepState SweepState → Nat
  | .ok s => s.callbacks
  | .error s => s.callbacks

def isCancelledErr : Except SweepState SweepState → Bool
  | .ok _ => false
  | .error _ => true

/-- `total_pages` of the tqdm progress bar: `len(pages)` when the filter list
is truthy, else the page count. -/
def totalPages (n : Nat) (pages : List Nat) : Nat :=
  if pages.isEmpty then n else pages.length

lemma sweepFrom_no_cancel (pages : List Nat) (hc : Bool) (cancelled : Nat → Bool)
    (fuel : Nat) :
    ∀ start s, (∀ p, start ≤ p → p < start + fuel → cancelled p = false) →
    sweepFrom pages hc cancelled start fuel s =
      .ok ((List.range' start fuel).foldl (pageStep pages hc) s) := by
  induction fuel with
  | zero => intro start s _; rfl
  | succ fuel ih =>
      intro start s hnc
      rw [sweepFrom, hnc start (Nat.le_refl _) (by omega), List.range'_succ,
        List.foldl_cons]
      exact ih (start + 1) _ (fun p h1 h2 => hnc p (by omega) (by omega))

lemma foldl_pageStep_progress (pages : List Nat) (hc : Bool) (l : List Nat) :
    ∀ s : SweepState, (l.foldl (pageStep pages hc) s).progress =
      s.progress + (l.filter (fun p => pagePasses pages p)).length := by
  induction l with
  | nil => intro s; simp
  | cons p l ih =>
      intro s
      rw [List.foldl_cons, ih, List.filter_cons]
      by_cases hp : pagePasses pages p
      · simp [pageStep, hp]; omega
      · simp [pageStep, hp]

lemma foldl_pageStep_callbacks (pages : List Nat) (hc : Bool) (l : List Nat) :
    ∀ s : SweepState, (l.foldl (pageStep pages hc) s).callbacks =
      s.callbacks +
        (if hc then (l.filter (fun p => pagePasses pages p)).length else 0) := by
  induction l with
  | nil => intro s; simp
  | cons p l ih =>
      intro s
      rw [List.foldl_cons, ih, List.filter_cons]
      by_cases hp : pagePasses pages p
      · by_cases hhc : hc
        · simp [pageStep, hp, hhc]
          omega
        · simp [pageStep, hp, hhc]
      · simp [pageStep, hp]

/-- C3 counterexample: with page filter `[0, 2]` on a 3-page document and no
cancellation, progress advances only twice — page 1 is skipped by
`if pages and (pageno not in pages): continue` before `progress.update()`, so
progress does not advance once for each of the 3 visited pages. -/
theorem c3_skipped_page_progress_cex :
    progressOf (sweep 3 [0, 2] true (fun _ => false)) = 2 ∧
    callbacksOf (sweep 3 [0, 2] true (fun _ => false)) = 2 ∧
    ¬ progressOf (sweep 3 [0, 2] true (fun _ => false)) = 3 := by
  refine ⟨?_, ?_, ?_⟩ <;> decide

/-- C3 amended: in the `translate_patch` page sweep without cancellation,
progress and the progress callback advance exactly once per PROCESSED page —
pages excluded by a configured page-index filter are skipped by `continue`
before the progress update and contribute neither; the counts equal the number
of page indices below the page count that pass the filter (with page filter
`{0,2}` on a 3-page document: 2, which is also the tqdm total `len(pages)`). -/
theorem c3_progress_per_processed_page (n : Nat) (pages : List Nat) (hc : Bool)
    (cancelled : Nat → Bool) (hnc : ∀ p, p < n → cancelled p = false) :
    isCancelledErr (sweep n pages hc cancelled) = false ∧
    progressOf (sweep n pages hc cancelled) =
      ((List.range n).filter (fun p => pagePasses pages p)).length ∧
    callbacksOf (sweep n pages hc cancelled) =
      (if hc then ((List.range n).filter (fun p => pagePasses pages p)).length
       else 0) := by
  have hrun : sweep n pages hc cancelled =
      .ok ((List.range' 0 n).foldl (pageStep pages hc) initSweepState) := by
    unfold sweep
    exact sweepFrom_no_cancel pages hc cancelled n 0 initSweepState
      (fun p h1 h2 => hnc p (by omega))
  have hr : List.range' 0 n = List.range n := Eq.symm (List.range_eq_range' n)
  rw [hrun, hr]
  refine ⟨rfl, ?_, ?_⟩
  · show (_ : SweepState).progress = _
    rw [foldl_pageStep_progress]
    simp [initSweepState]
  · show (_ : SweepState).callbacks = _
    rw [foldl_pageStep_callbacks]
    simp [initSweepState]

theorem c3_progress_per_processed_page_witness :
    isCancelledErr (sweep 3 [0, 2] true (fun _ => false)) = false ∧
    progressOf (sweep 3 [0, 2] true (fun _ => false)) =
      ((List.range 3).filter (fun p => pagePasses [0, 2] p)).length ∧
    callbacksOf (sweep 3 [0, 2] true (fun _ => false)) =
      (if true then ((List.range 3).filter (fun p => pagePasses [0, 2] p)).length
       else 0) :=
  c3_progress_per_processed_page 3 [0, 2] true (fun _ => false)
    (fun _ _ => rfl)

lemma pageStep_callbacks_le (pages : List Nat) (hc : Bool) (s : SweepState)
    (p : Nat) :
    (pageStep pages hc s p).callbacks ≤ s.callbacks + 1 := by
  unfold pageStep
  by_cases hp : pagePasses pages p
  · by_cases hhc : hc <;> simp [hp, hhc]
  · simp [hp]

lemma pageStep_progress_le (pages : List Nat) (hc : Bool) (s : SweepState)
    (p : Nat) :
    (pageStep pages hc s p).progress ≤ s.progress + 1 := by
  unfold pageStep
  by_cases hp : pagePasses pages p
  · simp [hp]
  · simp [hp]

lemma sweepFrom_cancel (pages : List Nat) (hc : Bool) (cancelled : Nat → Bool)
    (fuel : Nat) :
    ∀ start s k, start ≤ k → k < start + fuel → cancelled k = true →
    isCancelledErr (sweepFrom pages hc cancelled start fuel s) = true ∧
    callbacksOf (sweepFrom pages hc cancelled start fuel s) ≤
      s.callbacks + (k - start) ∧
    progressOf (sweepFrom pages hc cancelled start fuel s) ≤
      s.progress + (k - start) := by
  induction fuel with
  | zero => intro start s k h1 h2 _; omega
  | succ fuel ih =>
      intro start s k h1 h2 hk
      rw [sweepFrom]
      by_cases hcs : cancelled start = true
      · simp only [hcs, if_pos]
        exact ⟨rfl, by simp [callbacksOf], by simp [progressOf]⟩
      · have hne : start ≠ k := fun he => hcs (he ▸ hk)
        simp only [hcs, if_neg, Bool.not_eq_true]
        have := ih (start + 1) (pageStep pages hc s start) k (by omega) (by omega) hk
        refine ⟨this.1, ?_, ?_⟩
        · have h3 := this.2.1
          have h4 := pageStep_callbacks_le pages hc s start
          omega
        · have h3 := this.2.2
          have h4 := pageStep_progress_le pages hc s start
          omega

/-- C4: if the cancellation event is set when the `translate_patch` sweep
reaches the boundary of some page `k < n` (the check runs once per page,
before any work on the page), the sweep ends in `CancelledError` — no object
patch map is returned as an `.ok` result — and both the number of
progress-callback invocations and the progress count are at most `k`, hence
strictly fewer than the `n` pages of the document. -/
theorem c4_cancellation_aborts_sweep (n : Nat) (pages : List Nat) (hc : Bool)
    (cancelled : Nat → Bool) (k : Nat) (hkn : k < n)
    (hk : cancelled k = true) :
    isCancelledErr (sweep n pages hc cancelled) = true ∧
    callbacksOf (sweep n pages hc cancelled) ≤ k ∧
    callbacksOf (sweep n pages hc cancelled) < n ∧
    progressOf (sweep n pages hc cancelled) ≤ k := by
  have h := sweepFrom_cancel pages hc cancelled n 0 initSweepState k
    (Nat.zero_le k) (by omega) hk
  unfold sweep
  obtain ⟨h1, h2, h3⟩ := h
  simp only [initSweepState] at h1 h2 h3 ⊢
  refine ⟨h1, ?_, ?_, ?_⟩
  · omega
  · omega
  · omega

theorem c4_cancellation_aborts_sweep_witness :
    isCancelledErr (sweep 10 [] true (fun p => decide (5 ≤ p))) = true ∧
    callbacksOf (sweep 10 [] true (fun p => decide (5 ≤ p))) ≤ 5 ∧
    callbacksOf (sweep 10 [] true (fun p => decide (5 ≤ p))) < 10 ∧
    progressOf (sweep 10 [] true (fun p => decide (5 ≤ p))) ≤ 5 :=
  c4_cancellation_aborts_sweep 10 [] true (fun p => decide (5 ≤ p)) 5
    (by decide) (by decide)

/-! ### Bilingual assembly (`translate_stream`, lines 322-327)

A document is a list of pages.  `doc_en.insert_file(doc_zh)` appends the
translated pages to the original document; then
`for id in range(page_count): doc_en.move_page(page_count + id, id * 2 + 1)`
relocates each appended page.  `move_page(src, dst)` removes the page at
index `src` and re-inserts it so that it ends up at index `dst`. -/

def insertAt {α : Type} : Nat → α → List α → List α
  | 0, a, l => a :: l
  | _ + 1, a, [] => [a]
  | n + 1, a, x :: l => x :: insertAt n a l

def removeAt {α : Type} : Nat → List α → List α
  | _, [] => []
  | 0, _ :: l => l
  | n + 1, x :: l => x :: removeAt n l

/-- `Document.move_page(src, dst)`: remove the page at `src`, insert it at
`dst` (no-op when `src` is out of range). -/
def movePage {α : Type} (l : List α) (src dst : Nat) : List α :=
  match l[src]? with
  | none => l
  | some x => insertAt dst x (removeAt src l)

/-- The dual document built by `translate_stream`: append the translated
pages (`insert_file`), then move appended page `id` to position `2*id + 1`
for `id = 0, …, page_count - 1`, with `page_count` the translated document's
page count. -/
def dualAssemble {α : Type} (orig trans : List α) : List α :=
  (List.range trans.length).foldl
    (fun acc id => movePage acc (trans.length + id) (2 * id + 1))
    (orig ++ trans)

/-- Pairwise interleaving `[o_0, t_0, o_1, t_1, …]` of two lists. -/
def interleave {α : Type} : List α → List α → List α
  | x :: xs, y :: ys => x :: y :: interleave xs ys
  | xs, _ => xs

lemma getAt?_append_right {α : Type} (A B : List α) (j : Nat) :
    (A ++ B)[A.length + j]? = B[j]? := by
  induction A with
  | nil => simp
  | cons a A ih => simpa [Nat.succ_add] using ih

lemma removeAt_append_right {α : Type} (A B : List α) (j : Nat) :
    removeAt (A.length + j) (A ++ B) = A ++ removeAt j B := by
  induction A with
  | nil => simp
  | cons a A ih => simpa [removeAt, Nat.succ_add] using ih

lemma insertAt_append_right {α : Type} (A B : List α) (j : Nat) (x : α) :
    insertAt (A.length + j) x (A ++ B) = A ++ insertAt j x B := by
  induction A with
  | nil => simp
  | cons a A ih => simpa [insertAt, Nat.succ_add] using ih

lemma interleave_length {α : Type} (xs ys : List α) (h : xs.length = ys.length) :
    (interleave xs ys).length = xs.length + ys.length := by
  induction xs generalizing ys with
  | nil =>
      cases ys with
      | nil => simp [interleave]
      | cons y ys => simp at h
  | cons x xs ih =>
      cases ys with
      | nil => simp at h
      | cons y ys =>
          simp only [interleave, List.length_cons]
          rw [ih ys (by simpa using h)]
          omega

lemma interleave_getAt_even {α : Type} (xs ys : List α) (k : Nat)
    (h : xs.length = ys.length) (hk : k < xs.length) :
    (interleave xs ys)[2 * k]? = xs[k]? := by
  induction k generalizing xs ys with
  | zero =>
      cases xs with
      | nil => simp at hk
      | cons x xs =>
          cases ys with
          | nil => simp at h
          | cons y ys => simp [interleave]
  | succ k ih =>
      cases xs with
      | nil => simp at hk
      | cons x xs =>
          cases ys with
          | nil => simp at h
          | cons y ys =>
              have : 2 * (k + 1) = (2 * k) + 1 + 1 := by omega
              rw [this]
              simp only [interleave, List.getElem?_cons_succ]
              exact ih xs ys (by simpa using h) (by simpa using hk)

lemma interleave_getAt_odd {α : Type} (xs ys : List α) (k : Nat)
    (h : xs.length = ys.length) (hk : k < ys.length) :
    (interleave xs ys)[2 * k + 1]? = ys[k]? := by
  induction k generalizing xs ys with
  | zero =>
      cases ys with
      | nil => simp at hk
      | cons y ys =>
          cases xs with
          | nil => simp at h
          | cons x xs => simp [interleave]
  | succ k ih =>
      cases ys with
      | nil => simp at hk
      | cons y ys =>
          cases xs with
          | nil => simp at h
          | cons x xs =>
              have : 2 * (k + 1) + 1 = (2 * k + 1) + 1 + 1 := by omega
              rw [this]
              simp only [interleave, List.getElem?_cons_succ]
              exact ih xs ys (by simpa using h) (by simpa using hk)

/-- One step of the move loop on a state `I ++ os ++ ts` with the first `2*id`
pages already interleaved turns it into `(I ++ [o, t]) ++ os' ++ ts'`. -/
lemma movePage_step {α : Type} (I : List α) (o t : α) (os ts : List α)
    (id n : Nat) (hI : I.length = 2 * id) (hos : os.length = ts.length)
    (hn : n = id + (os.length + 1)) :
    movePage (I ++ (o :: os) ++ (t :: ts)) (n + id) (2 * id + 1) =
      (I ++ [o, t]) ++ (os ++ ts) := by
  unfold movePage
  have hidx : n + id = (I ++ (o :: os)).length + 0 := by simp [hI]; omega
  rw [hidx, getAt?_append_right, removeAt_append_right]
  simp only [List.getElem?_cons_zero, removeAt]
  have hsplit : (I ++ (o :: os)) ++ ts = (I ++ [o]) ++ (os ++ ts) := by simp
  have hins : 2 * id + 1 = (I ++ [o]).length + 0 := by simp [hI]
  rw [hsplit, hins, insertAt_append_right]
  simp [insertAt]

/-- The move loop over ids `id, id+1, …, n-1` interleaves the remaining
suffixes. -/
lemma moveLoop_interleaves {α : Type} (n : Nat) :
    ∀ (os ts I : List α) (id : Nat), I.length = 2 * id →
    os.length = ts.length → n = id + os.length →
    (List.range' id os.length).foldl
      (fun acc i => movePage acc (n + i) (2 * i + 1)) (I ++ os ++ ts) =
      I ++ interleave os ts := by
  intro os
  induction os with
  | nil =>
      intro ts I id _ hos _
      cases ts with
      | nil => simp [interleave]
      | cons t ts => simp at hos
  | cons o os ih =>
      intro ts I id hI hos hn
      cases ts with
      | nil => simp at hos
      | cons t ts =>
          simp only [List.length_cons, List.range'_succ, List.foldl_cons]
          rw [movePage_step I o t os ts id n hI (by simpa using hos)
            (by simp at hn ⊢; omega)]
          rw [← List.append_assoc (I ++ [o, t]) os ts]
          rw [ih ts (I ++ [o, t]) (id + 1) (by simp [hI]; omega)
            (by simpa using hos) (by simp at hn ⊢; omega)]
          simp [interleave]

/-- C2: the dual document built by `translate_stream` from an original
document and an equal-length translated document is the pairwise
interleaving: it has exactly `2 ×` the page count of the mono (translated)
output, page `2k` is the original document's page `k`, and page `2k + 1` is
the translated page `k`. -/
theorem c2_dual_document_interleaves {α : Type} (orig trans : List α)
    (hlen : orig.length = trans.length) :
    (dualAssemble orig trans).length = 2 * trans.length ∧
    (∀ k, k < trans.length →
      (dualAssemble orig trans)[2 * k]? = orig[k]?) ∧
    (∀ k, k < trans.length →
      (dualAssemble orig trans)[2 * k + 1]? = trans[k]?) := by
  have hassemble : dualAssemble orig trans = interleave orig trans := by
    unfold dualAssemble
    have h0 : orig ++ trans = [] ++ orig ++ trans := by simp
    rw [h0, List.range_eq_range' trans.length, ← hlen]
    exact moveLoop_interleaves _ orig trans [] 0 (by simp) hlen (by omega)
  refine ⟨?_, ?_, ?_⟩
  · rw [hassemble, interleave_length orig trans hlen]; omega
  · intro k hk
    rw [hassemble]
    exact interleave_getAt_even orig trans k hlen (by omega)
  · intro k hk
    rw [hassemble]
    exact interleave_getAt_odd orig trans k hlen hk

theorem c2_dual_document_interleaves_witness :
    (dualAssemble ["o0", "o1", "o2"] ["t0", "t1", "t2"]).length = 2 * 3 ∧
    (dualAssemble ["o0", "o1", "o2"] ["t0", "t1", "t2"])[2 * 1]? = some "o1" ∧
    (dualAssemble ["o0", "o1", "o2"] ["t0", "t1", "t2"])[2 * 1 + 1]? = some "t1" := by
  have h := c2_dual_document_interleaves ["o0", "o1", "o2"] ["t0", "t1", "t2"] rfl
  exact ⟨h.1, h.2.1 1 (by decide), h.2.2 1 (by decide)⟩

/-! ### Font resolution (`get_system_fonts`, `get_fallback_font`,
`translate_stream` lines 253-267)

The filesystem is abstracted as the predicate `ex : String → Bool`
(`os.path.exists`); `os.path.join` is `/`-concatenation. -/

/-- The search for one font family in `get_system_fonts`: the directory loop
skips non-existing directories (`continue`), the filename loop breaks at the
first existing file, the directory loop breaks once the family is found. -/
def lookupFont (ex : String → Bool) (fontPaths : List String)
    (filenames : List String) : Option String :=
  fontPaths.findSome? (fun p =>
    if ex p then
      filenames.findSome? (fun fn =>
        if ex (p ++ "/" ++ fn) then some (p ++ "/" ++ fn) else none)
    else none)

/-- `get_system_fonts`: fold over the `font_files` table (Python dict items in
insertion order), recording for each family the first resolved path. -/
def get_system_fonts (ex : String → Bool) (fontPaths : List String)
    (fontFiles : List (String × List String)) : List (String × String) :=
  fontFiles.foldl
    (fun acc p =>
      match lookupFont ex fontPaths p.2 with
      | some path => acc ++ [(p.1, path)]
      | none => acc)
    []

/-- The `font_files` table of the `sys.platform == "win32"` branch. -/
def winFontFiles : List (String × List String) :=
  [("simsun", ["simsun.ttc", "simsun.ttf"]),
   ("simhei", ["simhei.ttf"]),
   ("msyh", ["msyh.ttc", "msyh.ttf"]),
   ("simkai", ["simkai.ttf"])]

/-- The `font_paths` list of the `win32` branch, from the `WINDIR` and
`LOCALAPPDATA` environment variables. -/
def winFontPaths (winDir localAppData : String) : List String :=
  [winDir ++ "/Fonts", localAppData ++ "/Microsoft/Windows/Fonts"]

/-- The `font_files` table of the `sys.platform == "darwin"` branch. -/
def darwinFontFiles : List (String × List String) :=
  [("simsun", ["Sun.ttf", "STSong.ttf"]),
   ("simhei", ["STHeiti.ttf"]),
   ("msyh", ["STHeiti Light.ttf"]),
   ("simkai", ["STKaiti.ttf"])]

/-- The `font_paths` list of the `darwin` branch (`~` expanded to `home`). -/
def darwinFontPaths (home : String) : List String :=
  ["/System/Library/Fonts", "/Library/Fonts", home ++ "/Library/Fonts"]

/-- The `font_files` table of the Linux (`else`) branch. -/
def linuxFontFiles : List (String × List String) :=
  [("simsun", ["simsun.ttc", "simsun.ttf"]),
   ("simhei", ["simhei.ttf"]),
   ("msyh", ["msyh.ttc", "msyh.ttf"]),
   ("simkai", ["simkai.ttf"])]

/-- The `font_paths` list of the Linux branch (`~` expanded to `home`). -/
def linuxFontPaths (home : String) : List String :=
  ["/usr/share/fonts", "/usr/local/share/fonts", home ++ "/.fonts"]

/-- The font-selection loop of `translate_stream`:
`for font_name in ["simsun", "simhei", "msyh", "simkai"]:` take the first name
present in `system_fonts` and break. -/
def selectFontPath (systemFonts : List (String × String)) : Option String :=
  ["simsun", "simhei", "msyh", "simkai"].findSome?
    (fun name => systemFonts.lookup name)

/-- Font resolution of `translate_stream`: system font first, else the
fallback font, else `raise RuntimeError(...)`. -/
def resolveFont (ex : String → Bool) (fontPaths : List String)
    (fontFiles : List (String × List String)) (fallback : Option String) :
    Except String String :=
  match selectFontPath (get_system_fonts ex fontPaths fontFiles) with
  | some path => .ok path
  | none =>
      match fallback with
      | some path => .ok path
      | none => .error "No suitable font found and failed to get fallback font"

lemma resolveFont_four_families (ex : String → Bool) (fontPaths : List String)
    (f1 f2 f3 f4 : List String) (fallback : Option String) :
    resolveFont ex fontPaths
      [("simsun", f1), ("simhei", f2), ("msyh", f3), ("simkai", f4)] fallback =
      match [f1, f2, f3, f4].findSome? (lookupFont ex fontPaths) with
      | some path => .ok path
      | none =>
          match fallback with
          | some path => .ok path
          | none =>
              .error "No suitable font found and failed to get fallback font" := by
  cases h1 : lookupFont ex fontPaths f1 <;>
  cases h2 : lookupFont ex fontPaths f2 <;>
  cases h3 : lookupFont ex fontPaths f3 <;>
  cases h4 : lookupFont ex fontPaths f4 <;>
  simp [resolveFont, get_system_fonts, selectFontPath, List.findSome?_cons,
    h1, h2, h3, h4, List.lookup]

/-- C6: on each of the three platform branches, the font resolution of
`translate_stream` returns the path of the first font family — in the fixed
order simsun, simhei, msyh, simkai — that `get_system_fonts` resolves to an
existing file in that platform's directories; when no family resolves it
returns the fallback font, and when the fallback is also unavailable
(`get_fallback_font` returned `None`) it fails with the `RuntimeError`
message, before any translation work. -/
theorem c6_font_resolution_order (ex : String → Bool)
    (winDir localAppData home : String) (fallback : Option String) :
    (resolveFont ex (winFontPaths winDir localAppData) winFontFiles fallback =
      match [["simsun.ttc", "simsun.ttf"], ["simhei.ttf"],
             ["msyh.ttc", "msyh.ttf"], ["simkai.ttf"]].findSome?
          (lookupFont ex (winFontPaths winDir localAppData)) with
      | some path => .ok path
      | none =>
          match fallback with
          | some path => .ok path
          | none =>
              .error "No suitable font found and failed to get fallback font") ∧
    (resolveFont ex (darwinFontPaths home) darwinFontFiles fallback =
      match [["Sun.ttf", "STSong.ttf"], ["STHeiti.ttf"],
             ["STHeiti Light.ttf"], ["STKaiti.ttf"]].findSome?
          (lookupFont ex (darwinFontPaths home)) with
      | some path => .ok path
      | none =>
          match fallback with
          | some path => .ok path
          | none =>
              .error "No suitable font found and failed to get fallback font") ∧
    (resolveFont ex (linuxFontPaths home) linuxFontFiles fallback =
      match [["simsun.ttc", "simsun.ttf"], ["simhei.ttf"],
             ["msyh.ttc", "msyh.ttf"], ["simkai.ttf"]].findSome?
          (lookupFont ex (linuxFontPaths home)) with
      | some path => .ok path
      | none =>
          match fallback with
          | some path => .ok path
          | none =>
              .error "No suitable font found and failed to get fallback font") :=
  ⟨resolveFont_four_families ex (winFontPaths winDir localAppData) _ _ _ _ fallback,
   resolveFont_four_families ex (darwinFontPaths home) _ _ _ _ fallback,
   resolveFont_four_families ex (linuxFontPaths home) _ _ _ _ fallback⟩

/-! ### `get_fallback_font` (lines 117-135)

State: whether the cached file
`tempfile.gettempdir() + "/pdf2zh_fonts/SourceHanSerifSC-Regular.otf"`
exists (`cached`), and whether `urllib.request.urlretrieve` would succeed
(`downloadOk`).  The result records the returned path, the cache state after
the call, and whether a network fetch was attempted. -/

def fallbackFontPath (tempDir : String) : String :=
  tempDir ++ "/pdf2zh_fonts/SourceHanSerifSC-Regular.otf"

structure FallbackResult where
  font : Option String
  cachedAfter : Bool
  fetched : Bool
deriving DecidableEq, Repr

/-- `get_fallback_font`: skip the fetch when the file exists; on a fetch
failure return `None`; return the path only when the file exists afterwards. -/
def get_fallback_font (tempDir : String) (downloadOk cached : Bool) :
    FallbackResult :=
  if cached then ⟨some (fallbackFontPath tempDir), true, false⟩
  else if downloadOk then ⟨some (fallbackFontPath tempDir), true, true⟩
  else ⟨none, false, true⟩

/-- C8: `get_fallback_font` fetches at most once per cache directory — after a
call that returned a font path (so the cache is populated), a second call
performs no network fetch and returns the same cached path. -/
theorem c8_fallback_font_idempotent (tempDir : String) (d1 d2 c : Bool)
    (p : String) (h : (get_fallback_font tempDir d1 c).font = some p) :
    get_fallback_font tempDir d2 (get_fallback_font tempDir d1 c).cachedAfter =
      ⟨some p, true, false⟩ := by
  unfold get_fallback_font at h ⊢
  cases c with
  | true => simp at h ⊢; exact h
  | false =>
      cases d1 with
      | true => simp at h ⊢; exact h
      | false => simp at h

theorem c8_fallback_font_idempotent_witness :
    get_fallback_font "/tmp" false
        (get_fallback_font "/tmp" true false).cachedAfter =
      ⟨some (fallbackFontPath "/tmp"), true, false⟩ :=
  c8_fallback_font_idempotent "/tmp" true false false (fallbackFontPath "/tmp")
    rfl

/-! ### Resource patcher (`translate_stream`, lines 295-311)

Each indirect object is abstracted by its two font-resource slots: the value
of the PDF key `Resources/Font` and of the key `Font`.  `xref_get_key`
returns a (type, value) pair; the patcher acts only when the type is
`"dict"`; a `"null"` lookup result for `Font/<name>` means the name is
unbound.  A `bad` slot models an object on which the key access raises, which
the `try/except` swallows for that object and label. -/

inductive FontRes where
  | absent : FontRes
  | nonDict : FontRes
  | dict : List (String × String) → FontRes
  | bad : FontRes
deriving DecidableEq, Repr

structure PdfObj where
  resFont : FontRes
  dirFont : FontRes
deriving DecidableEq, Repr

/-- The body of one `(xref, label)` iteration: if the `…Font` key holds a
dictionary and `…Font/<name>` is null, bind the name; raise on a `bad` slot. -/
def patchLabel (name val : String) (r : FontRes) : Except Unit FontRes :=
  match r with
  | .bad => .error ()
  | .dict binds =>
      .ok (if (binds.lookup name).isNone then .dict (binds ++ [(name, val)])
           else .dict binds)
  | other => .ok other

/-- The `try/except Exception: pass` around one `(xref, label)` iteration:
a raising object is left unchanged. -/
def patchLabelSafe (name val : String) (r : FontRes) : FontRes :=
  match patchLabel name val r with
  | .ok r2 => r2
  | .error _ => r

/-- One object's patch: the label loop `for label in ["Resources/", ""]`. -/
def patchObj (name val : String) (o : PdfObj) : PdfObj :=
  { resFont := patchLabelSafe name val o.resFont
    dirFont := patchLabelSafe name val o.dirFont }

/-- The scan `for xref in range(1, xreflen)`: every object in the identifier
range is visited; each iteration reads and writes only its own object. -/
def patchScan (name val : String) (doc : List PdfObj) : List PdfObj :=
  doc.map (patchObj name val)

lemma patchLabelSafe_idem (name val : String) (r : FontRes) :
    patchLabelSafe name val (patchLabelSafe name val r) =
      patchLabelSafe name val r := by
  cases r with
  | absent => rfl
  | nonDict => rfl
  | bad => rfl
  | dict binds =>
      simp only [patchLabelSafe, patchLabel]
      by_cases hb : (binds.lookup name).isNone
      · have hlk : ((binds ++ [(name, val)]).lookup name) = some val := by
          rw [List.lookup_append]
          have : binds.lookup name = none := by
            cases h : binds.lookup name with
            | none => rfl
            | some v => rw [h] at hb; simp at hb
          simp [this, List.lookup]
        simp [hb, hlk]
      · simp [hb]

lemma patchObj_idem (name val : String) (o : PdfObj) :
    patchObj name val (patchObj name val o) = patchObj name val o := by
  simp [patchObj, patchLabelSafe_idem]

/-- A binding the dictionary already holds is never rewritten: `patchLabel`
only binds when the existing `Font/<name>` lookup is null. -/
lemma patchLabelSafe_preserves (name val v : String) (binds : List (String × String))
    (h : binds.lookup name = some v) :
    patchLabelSafe name val (.dict binds) = .dict binds := by
  simp [patchLabelSafe, patchLabel, h]

/-- C7: the resource-patching scan of `translate_stream` is idempotent — a
second run over the already-patched document changes nothing — and an object
whose font-resource dictionary already binds the font name keeps that exact
binding: a name is only bound when the existing lookup for it returns null. -/
theorem c7_resource_patch_idempotent (name val v : String) (doc : List PdfObj)
    (o : PdfObj) (binds : List (String × String)) ( _hmem : o ∈ doc)
    (hres : o.resFont = .dict binds) (hbound : binds.lookup name = some v) :
    patchScan name val (patchScan name val doc) = patchScan name val doc ∧
    (patchObj name val o).resFont = .dict binds := by
  constructor
  · unfold patchScan
    rw [List.map_map]
    exact List.map_congr_left (fun x _ => patchObj_idem name val x)
  · simp only [patchObj, hres]
    exact patchLabelSafe_preserves name val v binds hbound

theorem c7_resource_patch_idempotent_witness :
    patchScan "CustomFont" "7 0 R"
        (patchScan "CustomFont" "7 0 R"
          [⟨.dict [("CustomFont", "5 0 R")], .nonDict⟩, ⟨.dict [], .absent⟩]) =
      patchScan "CustomFont" "7 0 R"
        [⟨.dict [("CustomFont", "5 0 R")], .nonDict⟩, ⟨.dict [], .absent⟩] ∧
    (patchObj "CustomFont" "7 0 R"
        ⟨.dict [("CustomFont", "5 0 R")], .nonDict⟩).resFont =
      .dict [("CustomFont", "5 0 R")] :=
  c7_resource_patch_idempotent "CustomFont" "7 0 R" "5 0 R"
    [⟨.dict [("CustomFont", "5 0 R")], .nonDict⟩, ⟨.dict [], .absent⟩]
    ⟨.dict [("CustomFont", "5 0 R")], .nonDict⟩ [("CustomFont", "5 0 R")]
    (by simp) rfl (by simp [List.lookup])

/-- C9: a failure while inspecting or patching one object (both its slots
raise) is swallowed for that object only: the object is left unchanged, and
every remaining object of the identifier range is still visited and patched —
the scan never aborts. -/
theorem c9_patch_failure_swallowed (name val : String)
    (pre post : List PdfObj) (o : PdfObj) (hres : o.resFont = .bad)
    (hdir : o.dirFont = .bad) :
    patchScan name val (pre ++ o :: post) =
      patchScan name val pre ++ o :: patchScan name val post := by
  have ho : patchObj name val o = o := by
    cases o
    simp only [PdfObj.mk.injEq] at hres hdir ⊢
    simp_all [patchObj, patchLabelSafe, patchLabel]
  unfold patchScan
  rw [List.map_append, List.map_cons, ho]

theorem c9_patch_failure_swallowed_witness :
    patchScan "CustomFont" "7 0 R"
        [⟨.dict [], .absent⟩, ⟨.bad, .bad⟩, ⟨.dict [], .nonDict⟩] =
      patchScan "CustomFont" "7 0 R" [⟨.dict [], .absent⟩] ++
        (⟨.bad, .bad⟩ : PdfObj) ::
          patchScan "CustomFont" "7 0 R" [⟨.dict [], .nonDict⟩] :=
  c9_patch_failure_swallowed "CustomFont" "7 0 R" [⟨.dict [], .absent⟩]
    [⟨.dict [], .nonDict⟩] ⟨.bad, .bad⟩ rfl rfl

/-! ### `check_files` (lines 137-141) and the download branch of `translate`
(lines 408-423) -/

/-- Python `s.startswith(pre)` on the character lists of the two strings. -/
def charsStartWith : List Char → List Char → Bool
  | [], _ => true
  | _ :: _, [] => false
  | p :: ps, c :: cs => p == c && charsStartWith ps cs

def pyStartswith (s pre : String) : Bool := charsStartWith pre.data s.data

/-- `check_files`: drop `http://` entries, drop `https://` entries, report
the remaining entries that do not exist. -/
def check_files (ex : String → Bool) (files : List String) : List String :=
  ((files.filter (fun f => ! pyStartswith f "http://")).filter
      (fun f => ! pyStartswith f "https://")).filter (fun f => ! ex f)

/-- The guard `file is str` of the download branch in `translate`: Python
identity (`is`) between a `str` VALUE and the `str` TYPE OBJECT, which is
false for every string value. -/
def pyIsStrType (_f : String) : Bool := false

/-- The per-file source decision of `translate`: the download branch runs only
under `file is str and (file.startswith("http://") or
file.startswith("https://"))`; otherwise `file` itself is opened locally.
Returns the path actually opened and whether a download happened. -/
def translateSourcePath (f : String) : String × Bool :=
  if pyIsStrType f && (pyStartswith f "http://" || pyStartswith f "https://") then
    ("<downloaded-temp-file>", true)
  else (f, false)

/-- C10: `check_files` reports exactly the entries that start with neither
`http://` nor `https://` and do not exist — a URL entry is never reported
missing — and the remote-download branch of `translate` is unreachable for
every value because its guard `file is str` is identically false, so every
entry (URL or not) proceeds directly to the local file open. -/
theorem c10_check_files_and_unreachable_download (ex : String → Bool)
    (files : List String) (f : String) :
    (f ∈ check_files ex files ↔
      f ∈ files ∧ pyStartswith f "http://" = false ∧
        pyStartswith f "https://" = false ∧ ex f = false) ∧
    (pyStartswith f "https://" = true → f ∉ check_files ex files) ∧
    translateSourcePath f = (f, false) := by
  have hchar : f ∈ check_files ex files ↔
      f ∈ files ∧ pyStartswith f "http://" = false ∧
        pyStartswith f "https://" = false ∧ ex f = false := by
    unfold check_files
    simp only [List.mem_filter, Bool.not_eq_true']
    constructor
    · rintro ⟨⟨⟨h1, h2⟩, h3⟩, h4⟩
      exact ⟨h1, h2, h3, h4⟩
    · rintro ⟨h1, h2, h3, h4⟩
      exact ⟨⟨⟨h1, h2⟩, h3⟩, h4⟩
  refine ⟨hchar, ?_, ?_⟩
  · intro hurl hmem
    have := (hchar.mp hmem).2.2.1
    rw [hurl] at this
    cases this
  · simp [translateSourcePath, pyIsStrType]

theorem c10_check_files_and_unreachable_download_witness :
    ("https://arxiv.org/abs/x.pdf" ∉
      check_files (fun _ => false) ["paper.pdf", "https://arxiv.org/abs/x.pdf"]) ∧
    translateSourcePath "https://arxiv.org/abs/x.pdf" =
      ("https://arxiv.org/abs/x.pdf", false) :=
  ⟨(c10_check_files_and_unreachable_download (fun _ => false)
      ["paper.pdf", "https://arxiv.org/abs/x.pdf"]
      "https://arxiv.org/abs/x.pdf").2.1 (by decide),
   (c10_check_files_and_unreachable_download (fun _ => false)
      ["paper.pdf", "https://arxiv.org/abs/x.pdf"]
      "https://arxiv.org/abs/x.pdf").2.2⟩

end PDF2ZH
